import Mathlib

/-!
Verification of the transit radiative-transfer core against its source:
the extinction-grid engine (extinction.c) and the slant-path engine
(slantpath.c).  Arrays are embedded as lists, C doubles as rationals,
and external numeric collaborators (exp, sqrt, log, the GSL spline
integrator, the downsampler) as explicit function parameters, so every
control-flow and array-shape fact of the source is preserved exactly.
-/

namespace Transit

/-- Errors signalled through transiterror with the TERR_CRITICAL flag. -/
inductive TErr
  | ImpactParameterOutOfRange
  | InsufficientSamples
  deriving DecidableEq

/-- One item of an extinction checkpoint file: savefile_extinct writes raw
characters, doubles and boolean flags with fwrite, so the file is modelled
as the sequence of written items. -/
inductive FTok
  | ch (c : Char)
  | dbl (x : ℚ)
  | flg (b : Bool)
  deriving DecidableEq

/-- Magic tag "@E@S@" written at the head of an extinction savefile. -/
def magicToks : List FTok :=
  [.ch '@', .ch 'E', .ch '@', .ch 'S', .ch '@']

/-- Embedding of savefile_extinct (extinction.c): on a successful open it
writes the 5-byte magic tag, then nrad*nwav grid doubles (row-major: e is
the flattened e[0]), then nrad one-byte flags. -/
def savefile_extinct (e : List ℚ) (c : List Bool) (nrad nwav : ℕ) : List FTok :=
  magicToks ++ (e.take (nrad*nwav)).map FTok.dbl ++ (c.take nrad).map FTok.flg

/-- Value read when a file item is consumed as a double. -/
def decodeD : FTok → ℚ
  | .dbl x => x
  | _ => 0

/-- Value read when a file item is consumed as a boolean flag. -/
def decodeB : FTok → Bool
  | .flg b => b
  | _ => false

/-- Embedding of fread into a double buffer: overwrites the first
min(n, available) entries of buf, leaves the rest of the buffer unchanged,
and returns the remaining stream. -/
def freadD (toks : List FTok) (n : ℕ) (buf : List ℚ) : List ℚ × List FTok :=
  let k := min n toks.length
  ((toks.take k).map decodeD ++ buf.drop k, toks.drop k)

/-- Embedding of fread into a flag buffer, as in freadD. -/
def freadB (toks : List FTok) (n : ℕ) (buf : List Bool) : List Bool × List FTok :=
  let k := min n toks.length
  ((toks.take k).map decodeB ++ buf.drop k, toks.drop k)

/-- Embedding of restfile_extinct (extinction.c): a missing file (fopen
returns NULL) or a wrong 5-byte magic tag leaves both buffers unchanged and
only warns; otherwise the grid and flag buffers are overwritten from the
stream body. -/
def restfile_extinct (file : Option (List FTok)) (e : List ℚ) (c : List Bool)
    (nrad nwav : ℕ) : List ℚ × List Bool :=
  match file with
  | none => (e, c)
  | some toks =>
    if toks.take 5 = magicToks then
      let r1 := freadD (toks.drop 5) (nrad*nwav) e
      let r2 := freadB r1.2 nrad c
      (r1.1, r2.1)
    else (e, c)

/-- Truncation toward zero of a rational: the behaviour of a C cast of a
double to an integer type. -/
def ctrunc (x : ℚ) : ℤ := x.num.tdiv (x.den : ℤ)

/-- Embedding of getprofile (extinction.c): the number of Voigt profile
points nvgt, computed as 2*trunc(wvgt/dwn + 0.5) + 1 from the larger of the
two widths, forced up to 3 when below 2 and clamped to 2*nwave + 1 when
above 2*nwave. -/
def getprofile_nvgt (dwn dop lor ta : ℚ) (nwave : ℕ) : ℤ :=
  let bigalpha := if dop < lor then lor else dop
  let wvgt := bigalpha * ta
  let n0 : ℤ := 2 * ctrunc (wvgt / dwn + 1/2) + 1
  let n1 : ℤ := if n0 < 2 then 3 else n0
  if n1 > 2*(nwave:ℤ) then 2*(nwave:ℤ) + 1 else n1

/-- Embedding of getprofile's return value: half the profile size, by C
integer division (truncation). -/
def getprofile (dwn dop lor ta : ℚ) (nwave : ℕ) : ℤ :=
  (getprofile_nvgt dwn dop lor ta nwave).tdiv 2

/-- Reading back a written run of doubles recovers the original values. -/
theorem map_decodeD_dbl (e : List ℚ) : (e.map FTok.dbl).map decodeD = e := by
  induction e with
  | nil => rfl
  | cons a l ih => simp [decodeD, ih]

/-- Reading back a written run of flags recovers the original values. -/
theorem map_decodeB_flg (c : List Bool) : (c.map FTok.flg).map decodeB = c := by
  induction c with
  | nil => rfl
  | cons a l ih => simp [decodeB, ih]

/-- C1: saving and then restoring with the same dimensions reproduces the
grid and flag arrays exactly, and the file body is the magic tag followed
by the nrad*nwav grid doubles and the nrad flags. -/
theorem savefile_restfile_roundtrip (e e0 : List ℚ) (c c0 : List Bool)
    (nrad nwav : ℕ)
    (he : e.length = nrad*nwav) (hc : c.length = nrad)
    (he0 : e0.length = nrad*nwav) (hc0 : c0.length = nrad) :
    restfile_extinct (some (savefile_extinct e c nrad nwav)) e0 c0 nrad nwav
      = (e, c) ∧
    savefile_extinct e c nrad nwav
      = magicToks ++ e.map FTok.dbl ++ c.map FTok.flg := by
  have hte : e.take (nrad*nwav) = e := by rw [← he]; exact List.take_length e
  have htc : c.take nrad = c := by rw [← hc]; exact List.take_length c
  have hsave : savefile_extinct e c nrad nwav
      = magicToks ++ e.map FTok.dbl ++ c.map FTok.flg := by
    simp [savefile_extinct, hte, htc]
  refine ⟨?_, hsave⟩
  rw [hsave]
  have hmagic : (magicToks ++ e.map FTok.dbl ++ c.map FTok.flg).take 5
      = magicToks := by
    rw [List.append_assoc]
    have : magicToks.length = 5 := rfl
    rw [← this, List.take_left]
  have hdrop : (magicToks ++ e.map FTok.dbl ++ c.map FTok.flg).drop 5
      = e.map FTok.dbl ++ c.map FTok.flg := by
    rw [List.append_assoc]
    have : magicToks.length = 5 := rfl
    rw [← this, List.drop_left]
  rw [restfile_extinct, if_pos hmagic, hdrop]
  have hlen : (e.map FTok.dbl ++ c.map FTok.flg).length = e.length + c.length := by
    simp
  have hk : min (nrad*nwav) (e.map FTok.dbl ++ c.map FTok.flg).length
      = e.length := by
    rw [hlen, ← he]; omega
  have htake : (e.map FTok.dbl ++ c.map FTok.flg).take e.length
      = e.map FTok.dbl := by
    have : e.length = (e.map FTok.dbl).length := by simp
    rw [this, List.take_left]
  have hdrop2 : (e.map FTok.dbl ++ c.map FTok.flg).drop e.length
      = c.map FTok.flg := by
    have : e.length = (e.map FTok.dbl).length := by simp
    rw [this, List.drop_left]
  have hdec : (e.map FTok.dbl).map decodeD = e := map_decodeD_dbl e
  have hdecB : (c.map FTok.flg).map decodeB = c := map_decodeB_flg c
  have he0d : e0.drop e.length = [] := by
    apply List.drop_eq_nil_of_le
    omega
  have hc0d : c0.drop c.length = [] := by
    apply List.drop_eq_nil_of_le
    omega
  simp only [freadD, freadB, hk, htake, hdrop2, hdec, hdecB, he0d]
  have hkB : min nrad (c.map FTok.flg).length = c.length := by simp [hc]
  simp only [hkB]
  have htakeB : (c.map FTok.flg).take c.length = c.map FTok.flg := by
    have : c.length = (c.map FTok.flg).length := by simp
    rw [this, List.take_length]
  simp [htakeB, hdecB, hc0d]

/-- C1 witness: a concrete 1x2 grid with one flag survives the round trip. -/
theorem savefile_restfile_roundtrip_witness :
    restfile_extinct (some (savefile_extinct [1, 2] [true] 1 2)) [0, 0] [false] 1 2
      = ([1, 2], [true]) ∧
    savefile_extinct [1, 2] [true] 1 2
      = magicToks ++ [FTok.dbl 1, FTok.dbl 2] ++ [FTok.flg true] := by
  have h := savefile_restfile_roundtrip [1, 2] [0, 0] [true] [false] 1 2
    (by decide) (by decide) (by decide) (by decide)
  exact ⟨h.1, h.2⟩

/-- C8: restoring from a file whose first five bytes are not the magic tag
(including any file shorter than five bytes) leaves the grid and flag
buffers completely unchanged, and a missing file likewise leaves both
untouched. -/
theorem restfile_bad_magic_noop (toks : List FTok) (e : List ℚ) (c : List Bool)
    (nrad nwav : ℕ) (hm : toks.take 5 ≠ magicToks) :
    restfile_extinct (some toks) e c nrad nwav = (e, c) ∧
    restfile_extinct none e c nrad nwav = (e, c) := by
  constructor
  · rw [restfile_extinct, if_neg hm]
  · rfl

/-- C8 witness: a one-byte file with a wrong leading byte is ignored. -/
theorem restfile_bad_magic_noop_witness :
    restfile_extinct (some [FTok.ch 'X']) [1] [true] 1 1 = ([1], [true]) ∧
    restfile_extinct none [1] [true] 1 1 = ([1], [true]) :=
  restfile_bad_magic_noop [FTok.ch 'X'] [1] [true] 1 1 (by decide)

/-- C2: for positive Doppler and Lorentz widths and nwave at least 1, the
profile point count is odd, at least 3 and at most 2*nwave + 1, and the
function returns half the count by integer division. -/
theorem getprofile_count_props (dwn dop lor ta : ℚ) (nwave : ℕ)
    (hd : 0 < dop) (hl : 0 < lor) (hn : 1 ≤ nwave) :
    Odd (getprofile_nvgt dwn dop lor ta nwave) ∧
    3 ≤ getprofile_nvgt dwn dop lor ta nwave ∧
    getprofile_nvgt dwn dop lor ta nwave ≤ 2*(nwave:ℤ) + 1 ∧
    getprofile dwn dop lor ta nwave
      = (getprofile_nvgt dwn dop lor ta nwave).tdiv 2 := by
  have hnw : (1:ℤ) ≤ (nwave:ℤ) := by exact_mod_cast hn
  have hmain : getprofile_nvgt dwn dop lor ta nwave % 2 = 1 ∧
      3 ≤ getprofile_nvgt dwn dop lor ta nwave ∧
      getprofile_nvgt dwn dop lor ta nwave ≤ 2*(nwave:ℤ) + 1 := by
    simp only [getprofile_nvgt]
    generalize ctrunc ((if dop < lor then lor else dop) * ta / dwn + 1/2) = t
    split_ifs <;> omega
  exact ⟨Int.odd_iff.mpr hmain.1, hmain.2.1, hmain.2.2, rfl⟩

/-- C2 witness: concrete spacing 1, widths 1 and 2, range factor 3, nwave 5. -/
theorem getprofile_count_props_witness :
    Odd (getprofile_nvgt 1 1 2 3 5) ∧
    3 ≤ getprofile_nvgt 1 1 2 3 5 ∧
    getprofile_nvgt 1 1 2 3 5 ≤ 2*(5:ℤ) + 1 ∧
    getprofile 1 1 2 3 5 = (getprofile_nvgt 1 1 2 3 5).tdiv 2 :=
  getprofile_count_props 1 1 2 3 5 (by norm_num) (by norm_num) (by norm_num)

/-- Embedding of the dynamic-oversampling scan in computemolext
(extinction.c): walk the divisor candidates from the second onward and stop
at the first whose product with the oversampled spacing osp reaches half
the minimum width; the candidate before it is kept (the last candidate when
none stops the scan, the first when the second already stops it). -/
def ofactorLoop (osp minwidth : ℚ) : List ℕ → ℕ → ℕ
  | [], prev => prev
  | d :: ds, prev =>
    if (1/2) * minwidth ≤ (d:ℚ) * osp then prev
    else ofactorLoop osp minwidth ds d

/-- Dynamic oversampling factor selected by computemolext for one layer,
from the candidate list tr->odivs. -/
def ofactorSel (odivs : List ℕ) (osp minwidth : ℚ) : ℕ :=
  match odivs with
  | [] => 0
  | d :: ds => ofactorLoop osp minwidth ds d

/-- Dynamic-sampling grid interval ddwn = odwn * ofactor in computemolext. -/
def ddwnOf (odwn : ℚ) (odivs : List ℕ) (osp minwidth : ℚ) : ℚ :=
  odwn * (ofactorSel odivs osp minwidth : ℚ)

/-- Elements chained above a lower bound stay above it. -/
theorem chain_le_of_mem {a b : ℕ} {l : List ℕ}
    (hch : List.Chain (· ≤ ·) a l) (hb : b ∈ l) : a ≤ b := by
  induction l generalizing a with
  | nil => cases hb
  | cons x xs ih =>
    rcases List.chain_cons.mp hch with ⟨hax, hxs⟩
    rcases List.mem_cons.mp hb with h | h
    · omega
    · exact le_trans hax (ih hxs h)

/-- Core invariant of the candidate scan: if the running candidate already
satisfies the resolution bound and the remaining candidates ascend, the
scan returns the largest listed candidate satisfying the bound. -/
theorem ofactorLoop_largest (osp minwidth : ℚ) (hosp : 0 ≤ osp) :
    ∀ (ds : List ℕ) (prev : ℕ),
    (prev:ℚ) * osp < (1/2) * minwidth →
    List.Chain (· ≤ ·) prev ds →
    (ofactorLoop osp minwidth ds prev : ℚ) * osp < (1/2) * minwidth ∧
    ofactorLoop osp minwidth ds prev ∈ prev :: ds ∧
    ∀ d ∈ prev :: ds, (d:ℚ) * osp < (1/2) * minwidth →
      d ≤ ofactorLoop osp minwidth ds prev := by
  intro ds
  induction ds with
  | nil =>
    intro prev hprev _
    refine ⟨hprev, List.mem_singleton.mpr rfl, ?_⟩
    intro d hd _
    rcases List.mem_singleton.mp hd with rfl
    exact le_refl _
  | cons x xs ih =>
    intro prev hprev hch
    rcases List.chain_cons.mp hch with ⟨hpx, hxs⟩
    by_cases hbrk : (1/2) * minwidth ≤ (x:ℚ) * osp
    · rw [ofactorLoop, if_pos hbrk]
      refine ⟨hprev, List.mem_cons_self _ _, ?_⟩
      intro d hd hdlt
      rcases List.mem_cons.mp hd with rfl | hd'
      · exact le_refl _
      rcases List.mem_cons.mp hd' with rfl | hd''
      · exact absurd hdlt (not_lt.mpr hbrk)
      · have hxd : x ≤ d := chain_le_of_mem hxs hd''
        have : (x:ℚ) * osp ≤ (d:ℚ) * osp := by
          apply mul_le_mul_of_nonneg_right _ hosp
          exact_mod_cast hxd
        exact absurd hdlt (not_lt.mpr (le_trans hbrk this))
    · rw [ofactorLoop, if_neg hbrk]
      have hx : (x:ℚ) * osp < (1/2) * minwidth := lt_of_not_le hbrk
      obtain ⟨h1, h2, h3⟩ := ih x hx hxs
      refine ⟨h1, List.mem_cons_of_mem _ h2, ?_⟩
      intro d hd hdlt
      rcases List.mem_cons.mp hd with rfl | hd'
      · have hxr : x ≤ ofactorLoop osp minwidth xs x :=
          h3 x (List.mem_cons_self _ _) hx
        omega
      · exact h3 d hd' hdlt

/-- C5 (amended): when the first candidate already resolves the minimum
width (its product with the nonnegative oversampled spacing is below half
the minimum width) and the candidate list ascends, the factor selected by
computemolext is the largest listed candidate whose product with the
oversampled spacing stays below half the minimum width, and the
dynamic-grid spacing is the oversampled spacing times that factor. -/
theorem ofactorSel_spec (d0 : ℕ) (ds : List ℕ) (osp minwidth odwn : ℚ)
    (hosp : 0 ≤ osp)
    (h0 : (d0:ℚ) * osp < (1/2) * minwidth)
    (hch : List.Chain (· ≤ ·) d0 ds) :
    (ofactorSel (d0 :: ds) osp minwidth : ℚ) * osp < (1/2) * minwidth ∧
    ofactorSel (d0 :: ds) osp minwidth ∈ d0 :: ds ∧
    (∀ d ∈ d0 :: ds, (d:ℚ) * osp < (1/2) * minwidth →
      d ≤ ofactorSel (d0 :: ds) osp minwidth) ∧
    ddwnOf odwn (d0 :: ds) osp minwidth
      = odwn * (ofactorSel (d0 :: ds) osp minwidth : ℚ) := by
  obtain ⟨h1, h2, h3⟩ := ofactorLoop_largest osp minwidth hosp ds d0 h0 hch
  exact ⟨h1, h2, h3, rfl⟩

/-- C5 witness: candidates [1, 2], spacing 1/8, minimum width 1: the scan
keeps 2, the largest candidate with 2 * (1/8) < 1/2. -/
theorem ofactorSel_spec_witness :
    (ofactorSel [1, 2] (1/8) 1 : ℚ) * (1/8) < (1/2) * 1 ∧
    ofactorSel [1, 2] (1/8) 1 ∈ ([1, 2] : List ℕ) ∧
    (∀ d ∈ ([1, 2] : List ℕ), (d:ℚ) * (1/8) < (1/2) * 1 →
      d ≤ ofactorSel [1, 2] (1/8) 1) ∧
    ddwnOf (1/4) [1, 2] (1/8) 1 = (1/4) * (ofactorSel [1, 2] (1/8) 1 : ℚ) :=
  ofactorSel_spec 1 [2] (1/8) 1 (1/4) (by norm_num) (by norm_num)
    (List.chain_cons.mpr ⟨by omega, List.Chain.nil⟩)

/-- C5 counterexample: with candidates [1, 2], unit oversampled spacing and
minimum width 1, the scan breaks at the second candidate and keeps 1, yet
1 * 1 is not below half the minimum width: no candidate satisfies the
claimed bound, so the selected factor is not "the largest divisor whose
product with the oversampled spacing is below half the minimum width". -/
theorem ofactorSel_not_largest_cex :
    ofactorSel [1, 2] 1 1 = 1 ∧ ¬ ((1:ℚ) * 1 < (1/2) * 1) := by
  constructor
  · show ofactorLoop 1 1 [2] 1 = 1
    rw [ofactorLoop, if_pos (by norm_num)]
  · norm_num

/-- Modelled from the spec: binsearchapprox is declared in transitstd.c,
which is not part of the sources here; only its call sites in extinction.c
are.  Per the spec contract it is an approximate nearest-below binary
search over an ascending grid between indices lo (inclusive) and hi
(exclusive), clamping targets below the range to lo and above the range to
hi - 1. -/
def binsearchapprox (g : List ℚ) (t : ℚ) (lo hi : ℕ) : ℕ :=
  if hi ≤ lo + 1 then lo
  else
    if t < g.getD ((lo + hi)/2) 0 then binsearchapprox g t lo ((lo + hi)/2)
    else binsearchapprox g t ((lo + hi)/2) hi
termination_by hi - lo
decreasing_by
  · omega
  · omega

/-- Monotone access through getD on a sorted list, inside its length. -/
theorem sorted_getD_mono (g : List ℚ) (hs : List.Sorted (· ≤ ·) g) :
    ∀ i j, i ≤ j → j < g.length → g.getD i 0 ≤ g.getD j 0 := by
  intro i j hij hj
  rcases eq_or_lt_of_le hij with rfl | hlt
  · exact le_refl _
  · have hi : i < g.length := lt_trans hlt hj
    rw [List.getD_eq_getElem g 0 hi, List.getD_eq_getElem g 0 hj]
    exact List.pairwise_iff_getElem.mp hs i j hi hj hlt

/-- The returned index stays inside the searched half-open range. -/
theorem binsearchapprox_mem (g : List ℚ) (t : ℚ) :
    ∀ n lo hi, hi - lo ≤ n → lo < hi →
      lo ≤ binsearchapprox g t lo hi ∧ binsearchapprox g t lo hi < hi := by
  intro n
  induction n with
  | zero => intro lo hi h1 h2; omega
  | succ n ih =>
    intro lo hi hn hlh
    rw [binsearchapprox]
    by_cases hbase : hi ≤ lo + 1
    · rw [if_pos hbase]; omega
    · rw [if_neg hbase]
      by_cases hlt : t < g.getD ((lo + hi)/2) 0
      · rw [if_pos hlt]
        have := ih lo ((lo + hi)/2) (by omega) (by omega)
        omega
      · rw [if_neg hlt]
        have := ih ((lo + hi)/2) hi (by omega) (by omega)
        omega

/-- If the target is at least the grid value at lo, so is the grid value at
the returned index. -/
theorem binsearchapprox_le (g : List ℚ) (t : ℚ) :
    ∀ n lo hi, hi - lo ≤ n → lo < hi → g.getD lo 0 ≤ t →
      g.getD (binsearchapprox g t lo hi) 0 ≤ t := by
  intro n
  induction n with
  | zero => intro lo hi h1 h2; omega
  | succ n ih =>
    intro lo hi hn hlh hlo
    rw [binsearchapprox]
    by_cases hbase : hi ≤ lo + 1
    · rw [if_pos hbase]; exact hlo
    · rw [if_neg hbase]
      by_cases hlt : t < g.getD ((lo + hi)/2) 0
      · rw [if_pos hlt]
        exact ih lo ((lo + hi)/2) (by omega) (by omega) hlo
      · rw [if_neg hlt]
        exact ih ((lo + hi)/2) hi (by omega) (by omega) (le_of_not_lt hlt)

/-- The grid value one past the returned index, when inside the searched
range, is above the target. -/
theorem binsearchapprox_next (g : List ℚ) (t : ℚ) :
    ∀ n lo hi, hi - lo ≤ n → lo < hi →
      binsearchapprox g t lo hi + 1 = hi ∨
      t < g.getD (binsearchapprox g t lo hi + 1) 0 := by
  intro n
  induction n with
  | zero => intro lo hi h1 h2; omega
  | succ n ih =>
    intro lo hi hn hlh
    rw [binsearchapprox]
    by_cases hbase : hi ≤ lo + 1
    · rw [if_pos hbase]; left; omega
    · rw [if_neg hbase]
      by_cases hlt : t < g.getD ((lo + hi)/2) 0
      · rw [if_pos hlt]
        rcases ih lo ((lo + hi)/2) (by omega) (by omega) with h | h
        · right; rw [h]; exact hlt
        · right; exact h
      · rw [if_neg hlt]
        exact ih ((lo + hi)/2) hi (by omega) (by omega)

/-- Below-range targets never move the scan off the lower bound of an
ascending grid. -/
theorem binsearchapprox_clamp_lo (g : List ℚ) (t : ℚ)
    (hs : List.Sorted (· ≤ ·) g) :
    ∀ n lo hi, hi - lo ≤ n → lo < hi → hi ≤ g.length → t < g.getD lo 0 →
      binsearchapprox g t lo hi = lo := by
  intro n
  induction n with
  | zero => intro lo hi h1 h2; omega
  | succ n ih =>
    intro lo hi hn hlh hhi hbelow
    rw [binsearchapprox]
    by_cases hbase : hi ≤ lo + 1
    · rw [if_pos hbase]
    · rw [if_neg hbase]
      have hlt : t < g.getD ((lo + hi)/2) 0 :=
        lt_of_lt_of_le hbelow
          (sorted_getD_mono g hs lo ((lo + hi)/2) (by omega) (by omega))
      rw [if_pos hlt]
      exact ih lo ((lo + hi)/2) (by omega) (by omega) (by omega) hbelow

/-- Above-range targets are clamped to the top index of an ascending grid. -/
theorem binsearchapprox_clamp_hi (g : List ℚ) (t : ℚ)
    (hs : List.Sorted (· ≤ ·) g) :
    ∀ n lo hi, hi - lo ≤ n → lo < hi → hi ≤ g.length → g.getD (hi - 1) 0 < t →
      binsearchapprox g t lo hi = hi - 1 := by
  intro n
  induction n with
  | zero => intro lo hi h1 h2; omega
  | succ n ih =>
    intro lo hi hn hlh hhi habove
    rw [binsearchapprox]
    by_cases hbase : hi ≤ lo + 1
    · rw [if_pos hbase]; omega
    · rw [if_neg hbase]
      have hge : g.getD ((lo + hi)/2) 0 ≤ t := by
        apply le_trans _ (le_of_lt habove)
        exact sorted_getD_mono g hs ((lo + hi)/2) (hi - 1) (by omega) (by omega)
      rw [if_neg (not_lt.mpr hge)]
      exact ih ((lo + hi)/2) hi (by omega) (by omega) hhi habove

/-- C6: on an ascending grid searched over [lo, hi) with hi within the
grid, an in-range target t (g[lo] <= t) lands on an index k with g[k] <= t
and either k + 1 = hi or g[k+1] > t; a target below g[lo] clamps to lo and
a target above g[hi-1] clamps to hi - 1. -/
theorem binsearchapprox_floor_spec (g : List ℚ) (t : ℚ) (lo hi : ℕ)
    (hs : List.Sorted (· ≤ ·) g) (hlh : lo < hi) (hhi : hi ≤ g.length) :
    (g.getD lo 0 ≤ t →
      g.getD (binsearchapprox g t lo hi) 0 ≤ t ∧
      (binsearchapprox g t lo hi + 1 = hi ∨
        t < g.getD (binsearchapprox g t lo hi + 1) 0)) ∧
    (t < g.getD lo 0 → binsearchapprox g t lo hi = lo) ∧
    (g.getD (hi - 1) 0 < t → binsearchapprox g t lo hi = hi - 1) := by
  refine ⟨?_, ?_, ?_⟩
  · intro hin
    exact ⟨binsearchapprox_le g t hi lo hi (by omega) hlh hin,
           binsearchapprox_next g t hi lo hi (by omega) hlh⟩
  · intro hbelow
    exact binsearchapprox_clamp_lo g t hs hi lo hi (by omega) hlh hhi hbelow
  · intro habove
    exact binsearchapprox_clamp_hi g t hs hi lo hi (by omega) hlh hhi habove

/-- C6 witness: grid [1, 2, 4], target 3, searched over [0, 3). -/
theorem binsearchapprox_floor_spec_witness :
    (([1, 2, 4] : List ℚ).getD 0 0 ≤ 3 →
      ([1, 2, 4] : List ℚ).getD (binsearchapprox [1, 2, 4] 3 0 3) 0 ≤ 3 ∧
      (binsearchapprox [1, 2, 4] 3 0 3 + 1 = 3 ∨
        (3:ℚ) < ([1, 2, 4] : List ℚ).getD (binsearchapprox [1, 2, 4] 3 0 3 + 1) 0)) ∧
    ((3:ℚ) < ([1, 2, 4] : List ℚ).getD 0 0 → binsearchapprox [1, 2, 4] 3 0 3 = 0) ∧
    (([1, 2, 4] : List ℚ).getD (3 - 1) 0 < 3 → binsearchapprox [1, 2, 4] 3 0 3 = 3 - 1) :=
  binsearchapprox_floor_spec [1, 2, 4] 3 0 3
    (by norm_num [List.Sorted]) (by norm_num) (by norm_num)

/-- One record of the line-transition list lt: wavelength wl, isotope id,
lower-state energy elow and gf line-strength factor. -/
structure Line where
  wl : ℚ
  isoid : ℕ
  elow : ℚ
  gf : ℚ

/-- Merge condition of the co-adding loop in computemolext (extinction.c):
the candidate next line has the anchor's isotope and its wavenumber
1/(wl*wfct) is within one oversampled spacing odwn of the oversampled grid
point gridwn nearest the anchor line. -/
def coaddCond (wfct : ℚ) (i : ℕ) (gridwn odwn : ℚ) (l : Line) : Bool :=
  decide (l.isoid = i ∧ |1/(l.wl * wfct) - gridwn| < odwn)

/-- Embedding of the co-adding loop in computemolext (extinction.c): while
lines remain and the next line has the same isotope as the anchor and
falls within one oversampled spacing of the anchor's nearest grid point,
add its contribution into the running propto_k; stop at the first line
that fails either condition and return the accumulated strength together
with the unconsumed rest of the list. -/
def coadd (wfct : ℚ) (contrib : Line → ℚ) (i : ℕ) (gridwn odwn : ℚ) :
    List Line → ℚ → ℚ × List Line
  | [], acc => (acc, [])
  | l :: ls, acc =>
    if coaddCond wfct i gridwn odwn l then
      coadd wfct contrib i gridwn odwn ls (acc + contrib l)
    else (acc, l :: ls)

/-- C7: the co-adding loop consumes exactly the maximal prefix of following
lines that share the anchor's isotope and lie within one oversampled
spacing of the anchor's nearest oversampled grid point, summing their
contributions into propto_k, and stops at the first line failing either
condition, leaving it and everything after it for the outer loop. -/
theorem coadd_merge_spec (wfct : ℚ) (contrib : Line → ℚ) (i : ℕ)
    (gridwn odwn : ℚ) (ls : List Line) (acc : ℚ) :
    coadd wfct contrib i gridwn odwn ls acc
      = (acc + ((ls.takeWhile (coaddCond wfct i gridwn odwn)).map contrib).sum,
         ls.dropWhile (coaddCond wfct i gridwn odwn)) := by
  induction ls generalizing acc with
  | nil => simp [coadd]
  | cons l ls ih =>
    by_cases hc : coaddCond wfct i gridwn odwn l
    · rw [coadd, if_pos hc, ih, List.takeWhile_cons, List.dropWhile_cons, hc]
      simp [add_assoc]
    · rw [coadd, if_neg hc, List.takeWhile_cons, List.dropWhile_cons]
      rw [Bool.not_eq_true] at hc
      rw [hc]
      simp

/-- The co-adding loop never returns more lines than it was given. -/
theorem coadd_rest_le (wfct : ℚ) (contrib : Line → ℚ) (i : ℕ)
    (gridwn odwn : ℚ) :
    ∀ (ls : List Line) (acc : ℚ),
      (coadd wfct contrib i gridwn odwn ls acc).2.length ≤ ls.length := by
  intro ls
  induction ls with
  | nil => intro acc; simp [coadd]
  | cons l ls ih =>
    intro acc
    rw [coadd]
    by_cases hc : coaddCond wfct i gridwn odwn l
    · rw [if_pos hc]
      calc (coadd wfct contrib i gridwn odwn ls (acc + contrib l)).2.length
          ≤ ls.length := ih _
        _ ≤ (l :: ls).length := by simp
    · rw [if_neg hc]

/-- Physical constants from the transit headers together with the libm
collaborators exp and sqrt, which are external to the repository and are
modelled as explicit function parameters. -/
structure Phys where
  KB : ℚ
  AMU : ℚ
  PI : ℚ
  LS : ℚ
  SQRTLN2 : ℚ
  SIGCTE : ℚ
  EXPCTE : ℚ
  rexp : ℚ → ℚ
  rsqrt : ℚ → ℚ

/-- Inputs of computemolext (extinction.c) at a fixed layer r: the line
list, isotope and molecule tables, the layer temperature, the wavenumber
grids and spacings, the divisor candidates, the culling threshold, the
cached Voigt profiles, and the external downsampler (downsample is not
part of the sources here). -/
structure CMEIn where
  ph : Phys
  lines : List Line
  wfct : ℚ
  efct : ℚ
  imol : List ℕ
  isorat : List ℚ
  isom : List ℚ
  isoz : List ℚ
  niso : ℕ
  mold : List ℚ
  molm : List ℚ
  molrad : List ℚ
  nmol : ℕ
  temp : ℚ
  wns_i : ℚ
  wn0 : ℚ
  owns_v : List ℚ
  onwn : ℕ
  odwn : ℚ
  dwn : ℚ
  owns_o : ℕ
  odivs : List ℕ
  ethresh : ℚ
  aDop : List ℚ
  aLor : List ℚ
  nDop : ℕ
  nLor : ℕ
  profile : ℕ → ℕ → ℤ → ℚ
  profsize : ℕ → ℕ → ℕ
  dsample : List ℚ → ℕ → ℕ → List ℚ

/-- Lorentz-broadening prefactor florentz of computemolext. -/
def florentzOf (t : CMEIn) : ℚ :=
  t.ph.rsqrt (2*t.ph.KB*t.temp/t.ph.PI/t.ph.AMU) / (t.ph.AMU*t.ph.LS)

/-- Doppler-broadening prefactor fdoppler of computemolext. -/
def fdopplerOf (t : CMEIn) : ℚ :=
  t.ph.rsqrt (2*t.ph.KB*t.temp/t.ph.AMU) * t.ph.SQRTLN2 / t.ph.LS

/-- Lorentz width alphal[i] of one isotope: collision-diameter weighted sum
over all molecular partners, scaled by florentz. -/
def alphalOf (t : CMEIn) (i : ℕ) : ℚ :=
  ((List.range t.nmol).foldl (fun acc j =>
    acc + t.mold.getD j 0 / t.molm.getD j 0 *
      ((t.molrad.getD j 0 + t.molrad.getD (t.imol.getD i 0) 0) *
       (t.molrad.getD j 0 + t.molrad.getD (t.imol.getD i 0) 0)) *
      t.ph.rsqrt (1 / t.isom.getD i 0 + 1 / t.molm.getD j 0)) 0) * florentzOf t

/-- Doppler width alphad[i] of one isotope (per unit wavenumber). -/
def alphadOf (t : CMEIn) (i : ℕ) : ℚ :=
  fdopplerOf t / t.ph.rsqrt (t.isom.getD i 0)

/-- Minimum, over the isotopes, of the larger of the two widths at the
first wavenumber; the running minimum starts from 1e5 as in the source. -/
def minwidthOf (t : CMEIn) : ℚ :=
  (List.range t.niso).foldl
    (fun acc i => min acc (max (alphalOf t i) (alphadOf t i * t.wn0))) 100000

/-- Initial Doppler-width bin per isotope, looked up at the first
wavenumber. -/
def idop0Of (t : CMEIn) : List ℕ :=
  (List.range t.niso).map
    (fun i => binsearchapprox t.aDop (alphadOf t i * t.wn0) 0 t.nDop)

/-- Lorentz-width bin per isotope. -/
def ilorOf (t : CMEIn) : List ℕ :=
  (List.range t.niso).map
    (fun i => binsearchapprox t.aLor (alphalOf t i) 0 t.nLor)

/-- Line-strength factor propto_k of one line transition: density times
abundance, constant and gf factors, level population, induced emission,
divided by isotope mass and partition function. -/
def lineK (t : CMEIn) (l : Line) : ℚ :=
  t.mold.getD (t.imol.getD l.isoid 0) 0 * t.isorat.getD l.isoid 0 *
  t.ph.SIGCTE * l.gf *
  t.ph.rexp (-(t.ph.EXPCTE*t.efct*l.elow/t.temp)) *
  (1 - t.ph.rexp (-(t.ph.EXPCTE*(1/(l.wl*t.wfct))/t.temp))) /
  t.isom.getD l.isoid 0 / t.isoz.getD l.isoid 0

/-- First pass of computemolext: running (kmax, kmin) over the in-range
lines, seeded by the first contribution through the kmax == 0 test. -/
def kminmaxOf (t : CMEIn) : ℚ × ℚ :=
  t.lines.foldl (fun acc l =>
    if 1/(l.wl*t.wfct) < t.wns_i then acc
    else if t.owns_v.getD (t.onwn - 1) 0 < 1/(l.wl*t.wfct) then acc
    else if acc.1 = 0 then (lineK t l, lineK t l)
    else (max acc.1 (lineK t l), min acc.2 (lineK t l))) (0, 0)

/-- Accumulation of one retained line profile into the fine grid: for j
from minj to maxj - 1, add propto_k * profile[ofactor*j - offset] into
ktmp[j]. -/
def addProfile (ktmp : List ℚ) (minj maxj : ℤ) (pk : ℚ) (prof : ℤ → ℚ) :
    List ℚ :=
  (List.range (maxj - minj).toNat).foldl
    (fun acc k =>
      acc.set (minj + (k:ℤ)).toNat
        (acc.getD (minj + (k:ℤ)).toNat 0 + pk * prof (minj + (k:ℤ)))) ktmp

/-- Second pass of computemolext: walk the line list; skip out-of-range
lines; co-add following same-isotope lines within one oversampled spacing
of the anchor's nearest grid point; cull merged lines below
ethresh * kmax; re-resolve the Doppler bin when the width ratio reaches
0.1; and convolve the cached profile into the dynamic fine grid clipped to
[0, dnwn). Carries the mutable idop bins and the fine accumulator. -/
def secondPass (t : CMEIn) (kmax : ℚ) (ofactor dnwn : ℕ) (ddwn : ℚ) :
    List Line → List ℕ → List ℚ → List ℕ × List ℚ
  | [], idop, ktmp => (idop, ktmp)
  | l :: ls, idop, ktmp =>
    if 1/(l.wl*t.wfct) < t.wns_i then
      secondPass t kmax ofactor dnwn ddwn ls idop ktmp
    else if t.owns_v.getD (t.onwn - 1) 0 < 1/(l.wl*t.wfct) then
      secondPass t kmax ofactor dnwn ddwn ls idop ktmp
    else
      let wavn := 1/(l.wl*t.wfct)
      let i := l.isoid
      let iown0 : ℤ := ctrunc ((wavn - t.wns_i)/t.odwn)
      let iown : ℤ :=
        if |wavn - t.owns_v.getD (iown0+1).toNat 0| <
           |wavn - t.owns_v.getD iown0.toNat 0| then iown0 + 1 else iown0
      let pr := coadd t.wfct (lineK t) i (t.owns_v.getD iown.toNat 0) t.odwn
        ls (lineK t l)
      if pr.1 < t.ethresh * kmax then
        secondPass t kmax ofactor dnwn ddwn pr.2 idop ktmp
      else
        let idwn : ℤ := ctrunc ((wavn - t.wns_i)/ddwn)
        let idop2 := if (1:ℚ)/10 ≤ alphadOf t i * wavn / alphalOf t i
          then idop.set i (binsearchapprox t.aDop (alphadOf t i * wavn) 0 t.nDop)
          else idop
        let ps : ℤ := (t.profsize (idop2.getD i 0) ((ilorOf t).getD i 0) : ℤ)
        let subw : ℤ := iown - idwn * (ofactor:ℤ)
        let offset : ℤ := (ofactor:ℤ)*idwn - ps + subw
        let minj0 : ℤ := idwn - (ps - subw).tdiv (ofactor:ℤ)
        let maxj0 : ℤ := idwn + (ps + subw).tdiv (ofactor:ℤ)
        let minj : ℤ := if minj0 < 0 then 0 else minj0
        let maxj : ℤ := if (dnwn:ℤ) < maxj0 then (dnwn:ℤ) else maxj0
        let ktmp2 := addProfile ktmp minj maxj pr.1
          (fun j => t.profile (idop2.getD i 0) ((ilorOf t).getD i 0)
            ((ofactor:ℤ)*j - offset))
        secondPass t kmax ofactor dnwn ddwn pr.2 idop2 ktmp2
termination_by ls _ _ => ls.length
decreasing_by
  all_goals simp only [List.length_cons]
  all_goals first
    | exact Nat.lt_succ_of_le (coadd_rest_le _ _ _ _ _ _ _)
    | omega

/-- Result of one per-layer extinction computation: the layer's output
row, the computed flag for that layer, and the C return status. -/
structure CMEOut where
  kiso_r : List ℚ
  computed_r : Bool
  status : ℤ

/-- Embedding of computemolext (extinction.c): widths, dynamic
oversampling factor, first-pass kmax, second-pass convolution, and the
downsampling of the fine accumulator by owns.o/ofactor; it always ends by
setting the layer's computed flag and returning 0. -/
def computemolext (t : CMEIn) : CMEOut :=
  let minwidth := minwidthOf t
  let ofactor := ofactorSel t.odivs (t.dwn / (t.owns_o:ℚ)) minwidth
  let ddwn := t.odwn * (ofactor:ℚ)
  let dnwn := 1 + (t.onwn - 1)/ofactor
  let kmax := (kminmaxOf t).1
  let ktmp0 := List.replicate t.onwn (0:ℚ)
  let r := secondPass t kmax ofactor dnwn ddwn t.lines (idop0Of t) ktmp0
  { kiso_r := t.dsample r.2 dnwn (t.owns_o / ofactor)
  , computed_r := true
  , status := 0 }

/-- Modelled from the spec: valueinarray (transitstd.c, not under src/)
returns the position of a value among the first n entries of a list of
molecule ids. -/
def valueinarray (ids : List ℤ) (v : ℤ) (n : ℕ) : ℕ :=
  (ids.take n).indexOf v

/-- Inputs of interpolmolext (extinction.c) at a fixed layer r: the
tabulated opacity grid (temperature axis, molecule ids, values at layer r),
the layer temperature, molecular densities, and the output row that the
interpolated extinction is accumulated into. -/
structure IMEIn where
  gtemp : List ℚ
  Ntemp : ℕ
  gmol : List ℤ
  Nmol : ℕ
  Nwave : ℕ
  temp : ℚ
  otab : ℕ → ℕ → ℕ → ℚ
  molID : List ℤ
  nmol : ℕ
  mold : List ℚ
  kiso_r : List ℚ

/-- Embedding of interpolmolext (extinction.c): find the grid temperature
immediately below the layer temperature (lookup adjusted down by one when
it overshoots), then for every wavenumber and tabulated molecule linearly
interpolate the opacity in temperature, scale by the molecular density and
accumulate into the output row; it always ends by setting the layer's
computed flag and returning 0. -/
def interpolmolext (t : IMEIn) : CMEOut :=
  let itemp0 := binsearchapprox t.gtemp t.temp 0 t.Ntemp
  let itemp : ℤ := if t.temp < t.gtemp.getD itemp0 0 then (itemp0:ℤ) - 1
    else (itemp0:ℤ)
  let row := (List.range t.Nwave).foldl (fun acc i =>
    (List.range t.Nmol).foldl (fun acc2 m =>
      let glo := t.gtemp.getD itemp.toNat 0
      let ghi := t.gtemp.getD (itemp+1).toNat 0
      let ext := (t.otab m itemp.toNat i * (ghi - t.temp) +
                  t.otab m (itemp+1).toNat i * (t.temp - glo)) / (ghi - glo)
      let im := valueinarray t.molID (t.gmol.getD m 0) t.nmol
      acc2.set i (acc2.getD i 0 + t.mold.getD im 0 * ext)) acc) t.kiso_r
  { kiso_r := row, computed_r := true, status := 0 }

/-- Largest index at or below k whose grid value does not exceed v (0 when
none does). -/
def floorIdx (a : List ℚ) (v : ℚ) : ℕ → ℕ
  | 0 => 0
  | k+1 => if a.getD (k+1) 0 ≤ v then k+1 else floorIdx a v k

/-- Modelled from the spec: binsearch is a generic utility that is not
under src/ (only its call sites in slantpath.c are).  It brackets a value
in an ascending grid between indices lo and hi: it returns -5 when the
value is at or beyond the grid value at hi (the ray misses the outermost
layer), a different negative code when the value is below the grid value
at lo, and otherwise the bin index rs with grid[rs] <= value <
grid[rs+1]. -/
def binsearch (a : List ℚ) (lo hi : ℕ) (v : ℚ) : ℤ :=
  if v < a.getD lo 0 then -2
  else if a.getD hi 0 ≤ v then -5
  else (floorIdx a v hi : ℤ)

/-- Modelled from the spec: interp_parab (not under src/) evaluates at x
the parabola through the three samples (x0, y0), (x1, y1), (x2, y2). -/
def interp_parab (x0 x1 x2 y0 y1 y2 x : ℚ) : ℚ :=
  y0 * ((x - x1)*(x - x2)) / ((x0 - x1)*(x0 - x2)) +
  y1 * ((x - x0)*(x - x2)) / ((x1 - x0)*(x1 - x2)) +
  y2 * ((x - x0)*(x - x1)) / ((x2 - x0)*(x2 - x1))

/-- Embedding of totaltau1 (slantpath.c) with the arrays passed and
returned explicitly: closest approach r0 = b/refr; a miss beyond the
outermost radius returns 0; r0 below the sampled range is a critical
error; otherwise the extinction and radius samples at the bracketing bin
are overwritten with the parabolic estimate at r0 and with r0, the path
integral is taken (spline via the external integrator when more than two
points remain, else the closed-form constant or linear tail), the two
perturbed samples are restored, and twice the integral is returned.  The
libm sqrt and log and the GSL integrator are external and passed as
function parameters. -/
def totaltau1 (rsqrt rlog : ℚ → ℚ) (integ : List ℚ → List ℚ → ℚ)
    (b refr : ℚ) (rad ex : List ℚ) (nrad : ℕ) :
    Except TErr (ℚ × List ℚ × List ℚ) :=
  let r0 := b / refr
  let rsi := binsearch rad 0 (nrad - 1) r0
  if rsi = -5 then .ok (0, rad, ex)
  else if rsi < 0 then .error .ImpactParameterOutOfRange
  else
    let rs := rsi.toNat
    let nl := nrad - rs
    let tmpex := ex.getD rs 0
    let tmprad := rad.getD rs 0
    let pex := if nl = 2 then
        interp_parab (rad.getD (rs-1) 0) (rad.getD rs 0) (rad.getD (rs+1) 0)
          (ex.getD (rs-1) 0) (ex.getD rs 0) (ex.getD (rs+1) 0) r0
      else
        interp_parab (rad.getD rs 0) (rad.getD (rs+1) 0) (rad.getD (rs+2) 0)
          (ex.getD rs 0) (ex.getD (rs+1) 0) (ex.getD (rs+2) 0) r0
    let ex1 := ex.set rs pex
    let rad1 := rad.set rs r0
    let dr := rad1.getD (rs+1) 0 - rad1.getD rs 0
    let res :=
      if 2 < nl then
        let dR := rad1.getD (rs+2) 0 - rad1.getD (rs+1) 0
        let cte := dr*(dr + 2*r0)
        let s := (List.range nl).map (fun j =>
          if j = 0 then 0
          else rsqrt (cte + ((j:ℚ) - 1)*dR*(2*(r0 + dr) + ((j:ℚ) - 1)*dR)))
        integ s ((ex1.drop rs).take nl)
      else
        let e0 := ex1.getD rs 0
        let e1 := ex1.getD (rs+1) 0
        let rm := rad1.getD (rs+1) 0
        if e1 = e0 then e0 * r0 * rsqrt (rm * rm / r0 / r0 - 1)
        else
          let alpha := (e1 - e0) / dr
          if alpha < 0 then
            -alpha * (rm * rsqrt (rm*rm - r0*r0) -
              r0*r0 * rlog (rsqrt (rm*rm/r0/r0 - 1) + rm/r0)) / 2
          else
            alpha * (rm * rsqrt (rm*rm - r0*r0) +
              r0*r0 * rlog (rsqrt (rm*rm/r0/r0 - 1) + rm/r0)) / 2
    let ex2 := ex1.set rs tmpex
    let rad2 := rad1.set rs tmprad
    .ok (2*res, rad2, ex2)

/-- Setting an element back to its original value undoes a set. -/
theorem set_set_restore (l : List ℚ) (n : ℕ) (v : ℚ) :
    (l.set n v).set n (l.getD n 0) = l := by
  induction l generalizing n with
  | nil => simp
  | cons a t ih =>
    cases n with
    | zero => simp [List.getD]
    | succ m =>
      simp only [List.set, List.getD_cons_succ]
      rw [ih]

/-- C3: with closest approach r0 = b/refr, a ray at or beyond the
outermost sampled radius yields optical depth 0 with untouched arrays (in
particular an impact parameter exactly at the outermost radius), while a
ray below the innermost sampled radius fails with
ImpactParameterOutOfRange. -/
theorem totaltau1_boundary (rsqrt rlog : ℚ → ℚ) (integ : List ℚ → List ℚ → ℚ)
    (b refr : ℚ) (rad ex : List ℚ) (nrad : ℕ) :
    (rad.getD 0 0 ≤ b/refr → rad.getD (nrad - 1) 0 ≤ b/refr →
      totaltau1 rsqrt rlog integ b refr rad ex nrad
        = .ok (0, rad, ex)) ∧
    (b/refr < rad.getD 0 0 →
      totaltau1 rsqrt rlog integ b refr rad ex nrad
        = .error .ImpactParameterOutOfRange) := by
  constructor
  · intro h1 h2
    have hb : binsearch rad 0 (nrad - 1) (b/refr) = -5 := by
      rw [binsearch, if_neg (not_lt.mpr h1), if_pos h2]
    simp only [totaltau1, hb]
    norm_num
  · intro h3
    have hb : binsearch rad 0 (nrad - 1) (b/refr) = -2 := by
      rw [binsearch, if_pos h3]
    simp only [totaltau1, hb]
    norm_num

/-- C3 witness: radii [1, 2, 3]; impact parameter 4 misses (optical depth
0), impact parameter 1/2 is below the innermost radius (critical error). -/
theorem totaltau1_boundary_witness :
    totaltau1 (fun _ => 0) (fun _ => 0) (fun _ _ => 0) 4 1 [1, 2, 3] [0, 0, 0] 3
      = .ok (0, [1, 2, 3], [0, 0, 0]) ∧
    totaltau1 (fun _ => 0) (fun _ => 0) (fun _ _ => 0) (1/2) 1 [1, 2, 3] [0, 0, 0] 3
      = .error .ImpactParameterOutOfRange :=
  ⟨(totaltau1_boundary (fun _ => 0) (fun _ => 0) (fun _ _ => 0) 4 1
      [1, 2, 3] [0, 0, 0] 3).1 (by norm_num) (by norm_num),
   (totaltau1_boundary (fun _ => 0) (fun _ => 0) (fun _ _ => 0) (1/2) 1
      [1, 2, 3] [0, 0, 0] 3).2 (by norm_num)⟩

/-- C9: whenever totaltau1 returns successfully, the radius and extinction
arrays it hands back hold exactly their original values: the transient
overwrite of the closest-approach sample (parabolic extinction estimate
and r0) has been undone. -/
theorem totaltau1_restores_arrays (rsqrt rlog : ℚ → ℚ)
    (integ : List ℚ → List ℚ → ℚ) (b refr : ℚ) (rad ex radf exf : List ℚ)
    (nrad : ℕ) (tval : ℚ)
    (h : totaltau1 rsqrt rlog integ b refr rad ex nrad
      = .ok (tval, radf, exf)) :
    radf = rad ∧ exf = ex := by
  simp only [totaltau1] at h
  split at h
  · rw [Except.ok.injEq, Prod.mk.injEq, Prod.mk.injEq] at h
    exact ⟨h.2.1.symm, h.2.2.symm⟩
  · split at h
    · cases h
    · rw [Except.ok.injEq, Prod.mk.injEq, Prod.mk.injEq] at h
      refine ⟨?_, ?_⟩
      · rw [← h.2.1, set_set_restore]
      · rw [← h.2.2, set_set_restore]

/-- C9 witness: a miss at the outermost radius is a successful return and
hands back the arrays unchanged. -/
theorem totaltau1_restores_arrays_witness :
    ([1, 2, 3] : List ℚ) = [1, 2, 3] ∧ ([5, 6, 7] : List ℚ) = [5, 6, 7] :=
  totaltau1_restores_arrays (fun _ => 0) (fun _ => 0) (fun _ _ => 0) 4 1
    [1, 2, 3] [5, 6, 7] [1, 2, 3] [5, 6, 7] 3 0
    (by
      have hb : binsearch [1, 2, 3] 0 2 ((4:ℚ)/1) = -5 := by
        rw [binsearch]
        rw [if_neg (by norm_num), if_pos (by norm_num)]
      simp only [totaltau1, hb]
      norm_num)

/-- Inputs of modulation1 (slantpath.c): the optical depths, the index of
the last valid sample, the saturation optical depth toomuch, the
descending impact-parameter sampling (values, scale factor, count), the
stellar radius, the initial content of the two uninitialised stack arrays
(junk), and the external libm exp and GSL spline integrator. -/
structure ModIn where
  tau : List ℚ
  last : ℕ
  toomuch : ℚ
  ipv_src : List ℚ
  ipfct : ℚ
  ipn : ℕ
  srad : ℚ
  junk : ℚ
  rexp : ℚ → ℚ
  integ : List ℚ → List ℚ → ℚ

/-- First loop of modulation1: for i = 0..last fill ipv[i] with the
re-indexed ascending impact parameter ip->v[last-i]*fct and rinteg[i] with
exp(-tau[i])*ipv[i]; both stack arrays start out holding junk. -/
def mod1Fill1 (t : ModIn) : List ℚ × List ℚ :=
  (List.range (t.last + 1)).foldl (fun acc i =>
    (acc.1.set i (t.ipv_src.getD (t.last - i) 0 * t.ipfct),
     acc.2.set i (t.rexp (-(t.tau.getD i 0)) *
       (t.ipv_src.getD (t.last - i) 0 * t.ipfct))))
    (List.replicate t.ipn t.junk, List.replicate t.ipn t.junk)

/-- Second loop of modulation1 plus the element count: last is moved up by
two (clamped to ipn - 1), the loop fills indices from last+1 while they
stay strictly below the moved bound with zero integrand, and the final
last++ makes the count last2 + 1; the element at index last2 is never
written. -/
def mod1Points (t : ModIn) : List ℚ × List ℚ × ℕ :=
  let f1 := mod1Fill1 t
  let last2 := if t.last + 2 > t.ipn - 1 then t.ipn - 1 else t.last + 2
  let f2 := (List.range (last2 - (t.last + 1))).foldl (fun acc k =>
    (acc.1.set (t.last + 1 + k)
       (t.ipv_src.getD (last2 - (t.last + 1 + k)) 0 * t.ipfct),
     acc.2.set (t.last + 1 + k) 0)) f1
  (f2.1, f2.2, last2 + 1)

/-- Embedding of modulation1 (slantpath.c): build the integrand points,
fail with a critical error when fewer than 3 remain, integrate the first
last3 points with the external spline integrator, and combine with the
stellar area, the outermost point and the saturated innermost disc. -/
def modulation1 (t : ModIn) : Except TErr ℚ :=
  let p := mod1Points t
  let last3 := p.2.2
  if last3 < 3 then .error .InsufficientSamples
  else
    let res0 := t.integ (p.1.take last3) (p.2.1.take last3)
    let res1 := 2*res0 + t.srad*t.srad
      - p.1.getD (last3 - 1) 0 * p.1.getD (last3 - 1) 0
      + t.rexp (-t.toomuch) * p.1.getD 0 0 * p.1.getD 0 0
    .ok (res1 / t.srad / t.srad)

/-- C4: evaluating the integrand construction at a transparent atmosphere
(tau = [0,0,0], last = 2) over the descending impact grid [8,...,1] shows
the padding slip: only one zero-integrand bin is appended (index 3) and
the fifth point handed to the spline integrator is the uninitialised
stack content — it changes from 37 to 42 when the junk seed changes — in
contradiction with the source's own comment "fill two more lower part
bins with 0".  The impact-parameter list is also no longer ascending at
the seam (..., 8, 7, junk). -/
theorem modulation1_pad_bug_eval :
    (mod1Points ⟨[0, 0, 0], 2, 10, [8, 7, 6, 5, 4, 3, 2, 1], 1, 8, 100, 37,
        fun _ => 1, fun _ _ => 0⟩).2.1.take 5 = [6, 7, 8, 0, 37] ∧
    (mod1Points ⟨[0, 0, 0], 2, 10, [8, 7, 6, 5, 4, 3, 2, 1], 1, 8, 100, 42,
        fun _ => 1, fun _ _ => 0⟩).2.1.take 5 = [6, 7, 8, 0, 42] ∧
    (mod1Points ⟨[0, 0, 0], 2, 10, [8, 7, 6, 5, 4, 3, 2, 1], 1, 8, 100, 37,
        fun _ => 1, fun _ _ => 0⟩).1.take 5 = [6, 7, 8, 7, 37] ∧
    (mod1Points ⟨[0, 0, 0], 2, 10, [8, 7, 6, 5, 4, 3, 2, 1], 1, 8, 100, 37,
        fun _ => 1, fun _ _ => 0⟩).2.2 = 5 := by
  refine ⟨?_, ?_, ?_, ?_⟩ <;>
    norm_num [mod1Points, mod1Fill1, List.range_succ, List.replicate]

/-- C10: both per-layer extinction computations are total successes: for
every input (any line list, any opacity table, every line culled or out of
range included) computemolext and interpolmolext return status 0 and set
the layer's computed flag; neither has an error path. -/
theorem computemolext_interpolmolext_status (t : CMEIn) (u : IMEIn) :
    (computemolext t).status = 0 ∧ (computemolext t).computed_r = true ∧
    (interpolmolext u).status = 0 ∧ (interpolmolext u).computed_r = true :=
  ⟨rfl, rfl, rfl, rfl⟩

end Transit
